import Mathlib

/-!
Verification of the interactive command-prompt engine (ICP).

Shallow embedding of the parser/advisor pipeline: strings are modelled as
lists of Unicode scalar values (`List Char`); Rust byte positions are
recovered through the UTF-8 size of each scalar (`Char.utf8Size`), and
Rust character positions are list indices.  Rust `usize` values appearing
here (positions, lengths) are far below `2^64`, so they are modelled as
`Nat` without wrap-around.

Components embedded, and their sources:
  * text utilities         src/icp/src/lib.rs, src/icp/src/input/common_prefix.rs
  * history ring           src/icp/src/input/history.rs
  * argument parse result  src/icp/src/input/arg_parser.rs
  * integer argument       src/icp/src/input/arg_parser/prim_int.rs
  * keyword set argument   src/icp/src/input/arg_parser/keyword_set.rs
  * command parsers        src/icp/src/input/command_parser.rs is absent from
                           the sources; the needed pieces are modelled from
                           the specification and marked as such
  * command table          src/icp/src/commands/table.rs, commands/help.rs
  * edit buffer            src/icp/src/input.rs
  * keystroke translation  src/icp-termion/src/lib.rs
-/

namespace Icp

/-- Strings are lists of Unicode scalar values, as Rust `String` /  `&str`
are sequences of `char` once decoded from UTF-8. -/
abbrev Str := List Char

/-- Byte length of a string: `str::len()` in Rust counts UTF-8 bytes. -/
def utf8Len : Str → Nat
  | [] => 0
  | c :: rest => c.utf8Size + utf8Len rest

/-- Byte-slice `s[0..n]`.  When `n` is a character boundary this is the
prefix of `s` occupying exactly `n` bytes.  (On a non-boundary `n` Rust
panics; this model keeps the characters that fit entirely.) -/
def takeBytes : Str → Nat → Str
  | _, 0 => []
  | [], _ => []
  | c :: rest, n => if c.utf8Size ≤ n then c :: takeBytes rest (n - c.utf8Size) else []

/-- Byte-slice `s[n..]`.  When `n` is a character boundary this drops the
prefix of `s` occupying exactly `n` bytes. -/
def dropBytes : Str → Nat → Str
  | l, 0 => l
  | [], _ => []
  | c :: rest, n => dropBytes rest (n - c.utf8Size)

/-- Regex class `\s` of `regex::Regex`, restricted to the ASCII whitespace
characters that can actually occur in the inputs considered here. -/
def isWs (c : Char) : Bool :=
  c = ' ' || c = '\t' || c = '\n' || c = '\r'

/-- `str_byte_pos` from src/icp/src/lib.rs: the byte offset of the `pos`-th
character of `s`, or `len(s)` when `pos` is at least the character count. -/
def strBytePos : Str → Nat → Nat
  | _, 0 => 0
  | [], _ + 1 => 0
  | c :: rest, pos + 1 => c.utf8Size + strBytePos rest pos

/-! ### History ring, from src/icp/src/input/history.rs

`History` owns a newest-first `VecDeque<String>` plus the index `current`
of the entry being browsed (`0` = not browsing).  The operations return
the produced text together with the updated ring, making the Rust
`&mut self` state explicit. -/

structure History where
  entries : List Str
  current : Nat
deriving Repr, DecidableEq

def History.new : History := ⟨[], 0⟩

/-- `History::prev`. -/
def History.prev (h : History) (cur : Str) : Str × History :=
  if h.entries = [] then
    (cur, h)
  else if h.current = 0 then
    -- Store current input as a new front entry (the scratch slot).
    let entries := cur :: h.entries
    (entries.getD 1 [], ⟨entries, 1⟩)
  else
    let current :=
      if h.current < h.entries.length - 1 then h.current + 1 else h.current
    (h.entries.getD current [], ⟨h.entries, current⟩)

/-- `History::next`. -/
def History.next (h : History) (cur : Str) : Str × History :=
  if h.current = 0 ∨ h.entries = [] then
    (cur, h)
  else if h.current = 1 then
    -- Pop the scratch entry off the front and hand it back.
    (h.entries.headD [], ⟨h.entries.tail, 0⟩)
  else
    let current := h.current - 1
    (h.entries.getD current [], ⟨h.entries, current⟩)

/-- `History::append`. -/
def History.append (h : History) (input : Str) : History :=
  if h.current ≠ 0 then ⟨input :: h.entries.tail, 0⟩
  else ⟨input :: h.entries, 0⟩

/-! ### Argument parse results, from src/icp/src/input/arg_parser.rs -/

inductive ArgParseRes (Res : Type) where
  | Failed (parsedUpTo : Nat) (reason : List Str)
  | Parsed (res : Res)
deriving Repr, DecidableEq

/-- `ArgParseRes::merge`: `Parsed` wins over any failure, the left operand
wins ties; of two failures the one with larger `parsed_up_to` wins, and on
equality the reasons are concatenated, left first.  The source matches on
`me_parsed_up_to.cmp(&other_parsed_up_to)`; its `Less` / `Greater` /
`Equal` arms appear here as the corresponding comparisons. -/
def ArgParseRes.merge {Res : Type} :
    ArgParseRes Res → ArgParseRes Res → ArgParseRes Res
  | Parsed r, _ => Parsed r
  | Failed _ _, Parsed r => Parsed r
  | Failed p1 r1, Failed p2 r2 =>
    if p1 < p2 then Failed p2 r2
    else if p2 < p1 then Failed p1 r1
    else Failed p1 (r1 ++ r2)

/-! ### Primitive integer argument parser, from src/icp/src/input/arg_parser/prim_int.rs -/

/-- Regex `^-?\d+$` of `PrimIntArgParser::parse`, with `\d` taken as the
ASCII digits that the integer inputs of interest consist of. -/
def isNumber : Str → Bool
  | [] => false
  | '-' :: ds => !ds.isEmpty && ds.all Char.isDigit
  | s => s.all Char.isDigit

/-- Byte length of the match of `^-?\d+` (regex `NUMBER_PREFIX`), `none`
when it does not match.  ASCII characters are one byte each. -/
def numberPrefixEnd : Str → Option Nat
  | '-' :: ds =>
    if (ds.takeWhile Char.isDigit).length = 0 then none
    else some (1 + (ds.takeWhile Char.isDigit).length)
  | s =>
    if (s.takeWhile Char.isDigit).length = 0 then none
    else some (s.takeWhile Char.isDigit).length

def digitsToNat (s : Str) : Nat :=
  s.foldl (fun a c => a * 10 + (c.toNat - '0'.toNat)) 0

/-- Mathematical value of a string matching `^-?\d+$`. -/
def intVal : Str → Int
  | '-' :: ds => -(digitsToNat ds : Int)
  | s => (digitsToNat s : Int)

/-- The value range of the Rust machine integer type `T` instantiating
`PrimIntArgParser<T>`: `u8` is `⟨0, 255⟩`, `i64` is `⟨-2^63, 2^63-1⟩`, … -/
structure MachineIntType where
  tmin : Int
  tmax : Int
deriving Repr, DecidableEq

def u8Type : MachineIntType := ⟨0, 255⟩

/-- Rust `<T as FromStr>::from_str` restricted to inputs already matching
`^-?\d+$` (the only inputs the source feeds it): an unsigned type rejects a
leading minus outright, and otherwise parsing succeeds exactly when the
value is representable in the type. -/
def fromStr (ty : MachineIntType) (s : Str) : Option Int :=
  if 0 ≤ ty.tmin ∧ s.headD ' ' = '-' then none
  else if ty.tmin ≤ intVal s ∧ intVal s ≤ ty.tmax then some (intVal s)
  else none

/-- `PrimIntArgParser<T>`: `ty` stands for the type parameter `T`; `min`,
`max` and `name` are the struct fields. -/
structure PrimIntArgParser where
  ty : MachineIntType
  min : Int
  max : Int
  name : Option Str
deriving Repr, DecidableEq

/-- Decimal rendering, as Rust `Display` for primitive integers. -/
def intRepr (i : Int) : Str := (toString i).toList

/-- `PrimIntArgParser::hint`. -/
def PrimIntArgParser.hint (p : PrimIntArgParser) : List Str :=
  match p.name with
  | some name =>
    if p.min < 0 then
      ["<".toList ++ name ++ ": ".toList ++ intRepr p.min ++ " - ".toList ++ intRepr p.max ++ ">".toList]
    else
      ["<".toList ++ name ++ ": ".toList ++ intRepr p.min ++ "-".toList ++ intRepr p.max ++ ">".toList]
  | none =>
    if p.min < 0 then
      ["<".toList ++ intRepr p.min ++ " - ".toList ++ intRepr p.max ++ ">".toList]
    else
      ["<".toList ++ intRepr p.min ++ "-".toList ++ intRepr p.max ++ ">".toList]

/-- The `"min ..."` reason produced on a below-range value. -/
def PrimIntArgParser.minMsg (p : PrimIntArgParser) : Str :=
  match p.name with
  | some name => "min ".toList ++ name ++ ": ".toList ++ intRepr p.min
  | none => "min: ".toList ++ intRepr p.min

/-- The `"max ..."` reason produced on an above-range value. -/
def PrimIntArgParser.maxMsg (p : PrimIntArgParser) : Str :=
  match p.name with
  | some name => "max ".toList ++ name ++ ": ".toList ++ intRepr p.max
  | none => "max: ".toList ++ intRepr p.max

/-- `PrimIntArgParser::parse`. -/
def PrimIntArgParser.parse (p : PrimIntArgParser) (input : Str) : ArgParseRes Int :=
  if ¬ isNumber input then
    match numberPrefixEnd input with
    | some e => .Failed e p.hint
    | none => .Failed 0 p.hint
  else
    match fromStr p.ty input with
    | some v =>
      if v < p.min then .Failed (utf8Len input) [p.minMsg]
      else if p.max < v then .Failed (utf8Len input) [p.maxMsg]
      else .Parsed v
    | none =>
      -- Rust `FromStr` failed (the value does not fit the machine type);
      -- the source falls back to the hint.
      .Failed (utf8Len input) p.hint

def PrimIntArgParser.suggestion (_p : PrimIntArgParser) (_pre : Str) : List Str := []

/-! ### Keyword set argument parser, from src/icp/src/input/arg_parser/keyword_set.rs -/

structure KeywordSetArgParser where
  keywords : List Str
  hints : List Str
deriving Repr, DecidableEq

/-- `common_prefix_len` of keyword_set.rs: number of leading characters
shared by the two strings (a character count, unlike the byte counts used
elsewhere). -/
def commonPrefixLen : Str → Str → Nat
  | c1 :: r1, c2 :: r2 => if c1 = c2 then 1 + commonPrefixLen r1 r2 else 0
  | _, _ => 0

/-- `KeywordSetArgParser::parse`. -/
def KeywordSetArgParser.parse (p : KeywordSetArgParser) (input : Str) : ArgParseRes Str :=
  match p.keywords.find? (fun k => k == input) with
  | some k => .Parsed k
  | none =>
    .Failed ((p.keywords.map (fun k => commonPrefixLen input k)).foldl max 0) p.hints

/-- `KeywordSetArgParser::suggestion`: keywords strictly extending the
typed prefix. -/
def KeywordSetArgParser.suggestion (p : KeywordSetArgParser) (pre : Str) : List Str :=
  p.keywords.filter (fun k => pre.isPrefixOf k && utf8Len pre < utf8Len k)

/-! ### Command parsers

The module root src/icp/src/input/command_parser.rs is not among the
sources (only its `alternatives` and `test_utils` submodules are), so the
pieces of it that the command table relies on are modelled from §4.4 of
the specification and checked against the expectations recorded in
src/icp/src/input/command_parser/alternatives.rs tests. -/

/-- Interface of a context-free argument parser (trait
`ContextFreeArgParser` of arg_parser.rs), packaged as plain functions. -/
structure CfArgParser (α : Type) where
  parse : Str → ArgParseRes α
  suggestion : Str → List Str
  hint : List Str

def PrimIntArgParser.cf (p : PrimIntArgParser) : CfArgParser Int :=
  ⟨p.parse, p.suggestion, p.hint⟩

def KeywordSetArgParser.cf (p : KeywordSetArgParser) : CfArgParser Str :=
  ⟨p.parse, p.suggestion, p.hints⟩

inductive CommandParseFailure where
  | ArgumentParseFailed (frm toB : Nat) (reason : List Str)
  | ExpectedArg (index : Nat) (hint : List Str)
  | UnexpectedArgument (frm : Nat)
deriving Repr, DecidableEq

/-- `CommandParseRes` of command_parser.rs.  The executor payload of
`Parsed` carries no observable state in this model, so it is dropped;
only the presence of a parsed executor is tracked. -/
inductive CommandParseRes where
  | Parsed
  | Failed (parsedUpTo : Nat) (reason : CommandParseFailure)
deriving Repr, DecidableEq

/-- Character-by-character worker for `splitTokens`: `cur` carries the
start offset and the reversed characters of the token being read. -/
def splitTokensAux : Str → Nat → Option (Nat × Str) → List (Str × Nat × Nat)
  | [], _, none => []
  | [], off, some (start, tokRev) => [(tokRev.reverse, start, off)]
  | c :: rest, off, cur =>
    if isWs c then
      match cur with
      | none => splitTokensAux rest (off + c.utf8Size) none
      | some (start, tokRev) =>
        (tokRev.reverse, start, off) :: splitTokensAux rest (off + c.utf8Size) none
    else
      match cur with
      | none => splitTokensAux rest (off + c.utf8Size) (some (off, [c]))
      | some (start, tokRev) =>
        splitTokensAux rest (off + c.utf8Size) (some (start, c :: tokRev))

/-- Modelled from the spec: whitespace tokenization with byte ranges used
by the `n-args` command parsers of the missing command_parser.rs
(“tokenize by whitespace, tracking byte ranges”).  Returns
`(token, from, to)` triples, `from`/`to` being byte offsets. -/
def splitTokens (l : Str) (off : Nat) : List (Str × Nat × Nat) :=
  splitTokensAux l off none

/-- Modelled from the spec: `command_1arg` from the missing
command_parser.rs.  One argument slot: a missing token reports
`ExpectedArg` (with the argument's suggestions when a cursor position is
given); a present token is parsed, failures are wrapped as
`ArgumentParseFailed` over the token's byte bounds with
`parsed_up_to = to`; a further token is an `UnexpectedArgument`.
Suggestions are produced when the cursor lies within the token. -/
def command1arg {α : Type} (arg : CfArgParser α) (input : Str) (pos : Option Nat) :
    CommandParseRes × Option (List Str) :=
  match splitTokens input 0 with
  | [] =>
    (.Failed 0 (.ExpectedArg 0 arg.hint),
      match pos with
      | some _ => some (arg.suggestion [])
      | none => none)
  | (tok, frm, toB) :: rest =>
    let sugg :=
      match pos with
      | some p =>
        if frm ≤ p ∧ p ≤ toB then some (arg.suggestion (takeBytes tok (p - frm)))
        else none
      | none => none
    match arg.parse tok with
    | .Failed _ reasons => (.Failed toB (.ArgumentParseFailed frm toB reasons), sugg)
    | .Parsed _ =>
      match rest with
      | [] => (.Parsed, sugg)
      | (_, frm2, _) :: _ => (.Failed toB (.UnexpectedArgument frm2), sugg)

/-- Modelled from the spec: `command_no_args` from the missing
command_parser.rs.  Whitespace-only input parses; any non-whitespace at
byte offset `from` is an `UnexpectedArgument` with `parsed_up_to = 0`. -/
def commandNoArgs (input : Str) (_pos : Option Nat) :
    CommandParseRes × Option (List Str) :=
  match splitTokens input 0 with
  | [] => (.Parsed, none)
  | (_, frm, _) :: _ => (.Failed 0 (.UnexpectedArgument frm), none)

/-- Modelled from the spec: the merge of command failure reasons on equal
`parsed_up_to` (“ties concatenate reasons”), as exercised by the
alternatives.rs test where two `ExpectedArg` hints are concatenated. -/
def mergeFailureReason : CommandParseFailure → CommandParseFailure → CommandParseFailure
  | .ExpectedArg i h1, .ExpectedArg _ h2 => .ExpectedArg i (h1 ++ h2)
  | r1, _ => r1

/-- Modelled from the spec: argument `merge` semantics lifted to command
results (§4.4): `Parsed` wins, the larger `parsed_up_to` wins, ties
concatenate reasons. -/
def CommandParseRes.merge : CommandParseRes → CommandParseRes → CommandParseRes
  | .Parsed, _ => .Parsed
  | .Failed _ _, .Parsed => .Parsed
  | .Failed p1 r1, .Failed p2 r2 =>
    if p1 < p2 then .Failed p2 r2
    else if p2 < p1 then .Failed p1 r1
    else .Failed p1 (mergeFailureReason r1 r2)

/-- A command parser: `(input, optional cursor) → (result, optional
suggestions)`. -/
abbrev CmdParser := Str → Option Nat → CommandParseRes × Option (List Str)

/-- `AlternativesCommandParser::parse` from
src/icp/src/input/command_parser/alternatives.rs: the first parser seeds
the fold, results are merged, suggestion lists are appended.  The source
panics on an empty parser list; no empty list is ever built here, and the
`[]` arm is the all-failed placeholder. -/
def alternativesCmd (parsers : List CmdParser) (input : Str) (pos : Option Nat) :
    CommandParseRes × Option (List Str) :=
  match parsers with
  | [] => (.Failed 0 (.UnexpectedArgument 0), none)
  | p :: rest =>
    rest.foldl
      (fun acc q =>
        let r := q input pos
        (acc.1.merge r.1,
          match acc.2, r.2 with
          | none, s => s
          | some a, none => some a
          | some a, some b => some (a ++ b)))
      (p input pos)

/-! ### Longest common prefix, from src/icp/src/input/common_prefix.rs -/

/-- Byte index of the first mismatching character pair, walking the two
strings in lockstep (the `char_indices().zip(chars())` loop). -/
def mismatchByteIdx : Str → Str → Nat → Option Nat
  | c1 :: r1, c2 :: r2, off =>
    if c1 ≠ c2 then some off else mismatchByteIdx r1 r2 (off + c1.utf8Size)
  | _, _, _ => none

/-- One step of `common_prefix`: `matched_end` starts at the smaller byte
length and is lowered to the first mismatch; `res` is cut to
`res[0..matched_end]`. -/
def commonPrefixStep (res next : Str) : Str :=
  let matchedEnd :=
    match mismatchByteIdx res next 0 with
    | some i => i
    | none => min (utf8Len res) (utf8Len next)
  takeBytes res matchedEnd

/-- `common_prefix`: the first option seeds the fold; an empty iterator
gives the empty string. -/
def commonPrefix (options : List Str) : Str :=
  match options with
  | [] => []
  | first :: rest => rest.foldl commonPrefixStep first

/-! ### Commands and the command table, from src/icp/src/commands.rs,
src/icp/src/commands/table.rs and src/icp/src/commands/help.rs -/

inductive EndOfLineHintTarget where
  | WholeLine
  | Substring (frm toB : Nat)
deriving Repr, DecidableEq

inductive HintType where
  | Info
  | Error
deriving Repr, DecidableEq

structure EndOfLineHint where
  target : EndOfLineHintTarget
  type_ : HintType
  text : Str
deriving Repr, DecidableEq

/-- A registered command (trait `Command`): its keyword, usage strings and
argument parser. -/
structure Command where
  keyword : Str
  shortUsage : Str
  longUsage : Str
  parse : CmdParser

/-- `ParseRes` of commands.rs, the advisory bundle.  The boxed executor of
`command` is modelled by its presence. -/
structure ParseRes where
  inlineHint : Option Str
  completion : Option Str
  endOfLineHint : Option EndOfLineHint
  suggestions : List Str
  usage : Option Str
  command : Option Unit
deriving Repr, DecidableEq

/-- `HELP_MSG` of table.rs (after `indoc!` strips the margin). -/
def helpMsg : Str :=
  "Chip Debugging Tool\n\nFunction key shortcuts are along the bottom of the screen.\n\nCommands:\n".toList

/-- `all_commands_usage` of help.rs: one line per command, the keyword
left-padded with spaces.  `max_width` is a byte count (`keyword().len()`)
while the Rust formatter pads counting displayed characters; both agree on
the ASCII keywords used here and the model keeps each as the source has
it. -/
def allCommandsUsage (commands : List Command) : List Str :=
  let maxWidth := (commands.map (fun c => utf8Len c.keyword)).foldl max 0
  commands.map (fun c =>
    "  ".toList ++ c.keyword ++ List.replicate (maxWidth - c.keyword.length) ' '
      ++ "    ".toList ++ c.shortUsage)

/-- `CommandsTable::default_usage`: the fixed banner followed by the
newline-joined per-command lines. -/
def defaultUsage (commands : List Command) : Str :=
  helpMsg ++ List.intercalate "\n".toList (allCommandsUsage commands)

/-- `empty_input` of table.rs. -/
def emptyInput (commands : List Command) : ParseRes where
  inlineHint := some "<command>".toList
  completion := none
  endOfLineHint := none
  suggestions := commands.map (fun c => c.keyword)
  usage := some "Waiting for a command".toList
  command := none

/-- `no_match` of table.rs. -/
def noMatch : ParseRes where
  inlineHint := none
  completion := none
  endOfLineHint := some ⟨.WholeLine, .Error, "TODO no_match".toList⟩
  suggestions := []
  usage := some "TODO: usage".toList
  command := none

/-- `prefix_command_no_hints` of table.rs. -/
def prefixCommandNoHints : ParseRes where
  inlineHint := none
  completion := none
  endOfLineHint := some ⟨.WholeLine, .Info, "TODO prefix_command_no_hints".toList⟩
  suggestions := []
  usage := some "TODO: prefix_command_no_hints usage".toList
  command := none

/-- `hint_and_completion` of table.rs.  Note that the middle branch tests
`common.len() == 1` — the byte length of the common prefix — even though
its comment speaks of a single match. -/
def hintAndCompletion (pre : Str) (sugg : List Str) : Option Str × Option Str :=
  let common := commonPrefix sugg
  if common = [] ∨ utf8Len common = utf8Len pre then
    (none, none)
  else if utf8Len common = 1 then
    let inlineHint := dropBytes common (utf8Len pre)
    -- Source comment: as there is only one match we can produce the
    -- whitespace as well.
    (some inlineHint, some (inlineHint ++ [' ']))
  else
    let value := dropBytes common (utf8Len pre)
    (some value, some value)

/-- `prefix_command` of table.rs. -/
def prefixCommand (pre : Str) (commands : List Command) : ParseRes :=
  let hc := hintAndCompletion pre (commands.map (fun c => c.keyword))
  { inlineHint := hc.1
    completion := hc.2
    endOfLineHint := some ⟨.WholeLine, .Info, "<command>".toList⟩
    suggestions := commands.map (fun c => c.keyword)
    usage := some "TODO: prefix_command usage".toList
    command := none }

/-- `parse_args` of table.rs: converts the command parser's outcome into
an advisory bundle.  `from`/`to` of an `ArgumentParseFailed` are used for
the `Substring` target exactly as the command parser produced them (they
are offsets into the `args` substring), while the `UnexpectedArgument` arm
pairs the parser-relative `from` with the whole-line `args_end`. -/
def parseArgs (command : Command) (args : Str) (pos : Option Nat) (argsEnd : Nat) :
    ParseRes :=
  match command.parse args pos with
  | (.Parsed, suggestions) =>
    { inlineHint := none
      completion := none
      endOfLineHint := none
      suggestions := suggestions.getD []
      usage := some "TODO: parse_args usage".toList
      command := some () }
  | (.Failed _ (.ArgumentParseFailed frm toB reason), suggestions) =>
    { inlineHint := none
      completion := none
      endOfLineHint := some ⟨.Substring frm toB, .Error, List.intercalate " | ".toList reason⟩
      suggestions := suggestions.getD []
      usage := some "TODO: parse_args usage".toList
      command := none }
  | (.Failed _ (.ExpectedArg _ hint), suggestions) =>
    { inlineHint := none
      completion := none
      endOfLineHint := some ⟨.WholeLine, .Error, List.intercalate " | ".toList hint⟩
      suggestions := suggestions.getD []
      usage := some "TODO: parse_args usage".toList
      command := none }
  | (.Failed _ (.UnexpectedArgument frm), suggestions) =>
    { inlineHint := none
      completion := none
      endOfLineHint := some ⟨.Substring frm argsEnd, .Error, "Unexpected argument".toList⟩
      suggestions := suggestions.getD []
      usage := some "TODO: parse_args usage".toList
      command := none }

/-- Outcome of the `\s*(\S+)\s*(.*)` capture of `CommandsTable::parse`:
the first word with its starting byte offset, and the remainder after the
following whitespace run with its starting byte offset.  Inputs are
single-line, as `.` does not match a newline. -/
structure CommandSplit where
  wordStart : Nat
  word : Str
  argsStart : Nat
  args : Str
deriving Repr, DecidableEq

def splitCommand (input : Str) : Option CommandSplit :=
  let rest := input.dropWhile isWs
  if rest.isEmpty then none
  else
    let wordStart := utf8Len (input.takeWhile isWs)
    let word := rest.takeWhile (fun c => !isWs c)
    let rest2 := rest.dropWhile (fun c => !isWs c)
    let gap := rest2.takeWhile isWs
    some ⟨wordStart, word, wordStart + utf8Len word + utf8Len gap, rest2.dropWhile isWs⟩

/-- `CommandsTable::parse`.  `pos` is the cursor position the edit buffer
hands over — a character index — and the source compares it against the
byte offsets of the regex captures exactly as modelled here. -/
def tableParse (commands : List Command) (input : Str) (pos : Nat) : ParseRes :=
  match splitCommand input with
  | none => emptyInput commands
  | some s =>
    let wordEnd := s.wordStart + utf8Len s.word
    let argsEnd := s.argsStart + utf8Len s.args
    match commands.find? (fun c => c.keyword == s.word) with
    | some command =>
      let innerPos :=
        if s.argsStart ≤ pos ∧ pos ≤ argsEnd then some (pos - s.argsStart) else none
      parseArgs command s.args innerPos argsEnd
    | none =>
      let matching := commands.filter (fun c => s.word.isPrefixOf c.keyword)
      if !matching.isEmpty then
        if pos < s.wordStart ∨ wordEnd < pos then prefixCommandNoHints
        else prefixCommand (takeBytes s.word (pos - s.wordStart)) matching
      else noMatch

/-! ### Edit buffer state machine, from src/icp/src/input.rs

The `Input` struct holds the typed text, the cursor (`pos`, documented as
a character count), the derived advisory fields, and the history.  Every
mutating operation ends by calling `update`, which overwrites the advisory
fields with `CommandsTable::parse(input, pos)`. -/

structure Prompt where
  empty : Str
  incomplete : Str
  invalid : Str
  complete : Str
deriving Repr, DecidableEq

structure Input where
  commands : List Command
  prompt : Prompt
  input : Str
  pos : Nat
  inlineHint : Option Str
  completion : Option Str
  endOfLineHint : Option EndOfLineHint
  suggestions : List Str
  usage : Option Str
  command : Option Unit
  history : History

/-- `Input::new`: note that it does not call `update`; the advisory starts
out mostly empty with `usage` set to the table's default usage. -/
def Input.new (prompt : Prompt) (commands : List Command) : Input where
  commands := commands
  prompt := prompt
  input := []
  pos := 0
  inlineHint := none
  completion := none
  endOfLineHint := none
  suggestions := []
  usage := some (defaultUsage commands)
  command := none
  history := History.new

/-- `Input::update`. -/
def Input.update (s : Input) : Input :=
  let r := tableParse s.commands s.input s.pos
  { s with
    inlineHint := r.inlineHint
    completion := r.completion
    endOfLineHint := r.endOfLineHint
    suggestions := r.suggestions
    usage := r.usage
    command := r.command }

/-- `Input::execute`: when a command is bound, append the input to the
history, clear it, reset the cursor and update.  (The executor invoked at
the end does not touch the edit state.) -/
def Input.execute (s : Input) : Input :=
  match s.command with
  | some _ =>
    Input.update
      { s with
        history := s.history.append s.input
        input := []
        pos := 0
        command := none }
  | none => s

def Input.cursorLeft (s : Input) : Input :=
  if s.pos = 0 then s else Input.update { s with pos := s.pos - 1 }

def Input.cursorRight (s : Input) : Input :=
  if s.input.length ≤ s.pos then s else Input.update { s with pos := s.pos + 1 }

def Input.cursorEnd (s : Input) : Input :=
  if s.input.length ≤ s.pos then s else Input.update { s with pos := s.input.length }

def Input.cursorStart (s : Input) : Input :=
  if s.pos = 0 then s else Input.update { s with pos := 0 }

/-- `Input::insert_char`: inserts at the byte offset of character `pos`
(`str_byte_pos` clamps to the end), which is exactly the character-index
insertion below, and advances the cursor by one.  No control-character
check is performed here. -/
def Input.insertChar (c : Char) (s : Input) : Input :=
  Input.update
    { s with
      input := s.input.take s.pos ++ [c] ++ s.input.drop s.pos
      pos := s.pos + 1 }

/-- `Input::erase_char`: removes the character at the cursor unless the
cursor is at or past the end. -/
def Input.eraseChar (s : Input) : Input :=
  if s.input.length ≤ s.pos then s
  else Input.update { s with input := s.input.take s.pos ++ s.input.drop (s.pos + 1) }

/-- `Input::backward_erase_char`: removes the character before the byte
position of the cursor (`min pos len` as a character index). -/
def Input.backwardEraseChar (s : Input) : Input :=
  if s.input.isEmpty then s
  else
    let bp := min s.pos s.input.length
    if bp = 0 then s
    else
      Input.update
        { s with
          input := s.input.take (bp - 1) ++ s.input.drop bp
          pos := s.pos - 1 }

/-- `Input::backward_erase_line`: drains everything before the cursor's
byte position (which is 0 exactly when `min pos len = 0`). -/
def Input.backwardEraseLine (s : Input) : Input :=
  if min s.pos s.input.length = 0 then s
  else Input.update { s with input := s.input.drop (min s.pos s.input.length), pos := 0 }

/-- `Input::history_prev`.  The at-end test compares the character cursor
`pos` with `input.len()` — the BYTE length — and on success the cursor is
set to the byte length of the new input, both carried over from the
source verbatim. -/
def Input.historyPrev (s : Input) : Input :=
  let atEol := utf8Len s.input ≤ s.pos
  let r := s.history.prev s.input
  Input.update
    { s with
      input := r.1
      history := r.2
      pos := if atEol then utf8Len r.1 else s.pos }

/-- `Input::history_next`, with the same byte-length cursor handling as
`history_prev`. -/
def Input.historyNext (s : Input) : Input :=
  let atEol := utf8Len s.input ≤ s.pos
  let r := s.history.next s.input
  Input.update
    { s with
      input := r.1
      history := r.2
      pos := if atEol then utf8Len r.1 else s.pos }

/-- `Input::complete`: inserts the completion text at the cursor's byte
position and advances the cursor by `text.len()` — the BYTE length of the
inserted text — carried over from the source verbatim. -/
def Input.complete (s : Input) : Input :=
  match s.completion with
  | none => s
  | some text =>
    Input.update
      { s with
        input := s.input.take s.pos ++ text ++ s.input.drop s.pos
        pos := s.pos + utf8Len text }

/-! ### Keystroke translation, from src/icp-termion/src/lib.rs -/

/-- Rust `char::is_control`: the Unicode `Cc` category,
`U+0000..U+001F` and `U+007F..U+009F`. -/
def isControl (c : Char) : Bool :=
  c.toNat < 0x20 || (0x7F ≤ c.toNat && c.toNat ≤ 0x9F)

/-- The termion key events the translator distinguishes. -/
inductive Key where
  | char (c : Char)
  | up
  | down
  | left
  | right
  | delete
  | backspace
  | ctrl (c : Char)
deriving Repr, DecidableEq

/-- `Input::input` of icp-termion: maps a key event to an edit-buffer
operation.  `'\n'` executes (after the wrapper's own bound-command check),
`'\t'` completes, and any other non-control character is inserted; control
characters reach no edit operation at all. -/
def termionInput (k : Key) (s : Input) : Input :=
  match k with
  | .char '\n' => if s.command.isSome then s.execute else s
  | .up => s.historyPrev
  | .ctrl 'p' => s.historyPrev
  | .down => s.historyNext
  | .ctrl 'n' => s.historyNext
  | .left => s.cursorLeft
  | .ctrl 'b' => s.cursorLeft
  | .right => s.cursorRight
  | .ctrl 'f' => s.cursorRight
  | .char '\t' => s.complete
  | .ctrl 'a' => s.cursorStart
  | .ctrl 'e' => s.cursorEnd
  | .backspace => s.backwardEraseChar
  | .ctrl 'h' => s.backwardEraseChar
  | .delete => s.eraseChar
  | .ctrl 'd' => s.eraseChar
  | .ctrl 'u' => s.backwardEraseLine
  | .char c => if !isControl c then s.insertChar c else s
  | .ctrl _ => s

/-! ### Concrete command tables

The scenario table of the specification, `{east <0-63>, west <0-63>,
reset, help}`: `east`/`west` take one `u8` argument restricted to
`[0, 63]` (`prim_int_for_range(0u8, 63)` under `command_1arg`), `reset`
takes no argument, and `help` is the built-in alternatives parser over a
no-argument form and a `<command name>` keyword form. -/

def rangeArg : PrimIntArgParser := ⟨u8Type, 0, 63, none⟩

def demoKeywords : List Str :=
  ["east".toList, "west".toList, "reset".toList, "help".toList]

def eastCmd : Command where
  keyword := "east".toList
  shortUsage := "Move the probe east.".toList
  longUsage := "east <0-63>\n\n    Move the probe east.\n".toList
  parse := fun input pos => command1arg rangeArg.cf input pos

def westCmd : Command where
  keyword := "west".toList
  shortUsage := "Move the probe west.".toList
  longUsage := "west <0-63>\n\n    Move the probe west.\n".toList
  parse := fun input pos => command1arg rangeArg.cf input pos

def resetCmd : Command where
  keyword := "reset".toList
  shortUsage := "Reset the probe.".toList
  longUsage := "reset\n\n    Reset the probe.\n".toList
  parse := commandNoArgs

def helpArg : KeywordSetArgParser := ⟨demoKeywords, ["<command name>".toList]⟩

def helpCmd : Command where
  keyword := "help".toList
  shortUsage := "All the commands and their descriptions.".toList
  longUsage := "help\n\n    Shows the list of all the supported commands.\n".toList
  parse := fun input pos =>
    alternativesCmd [commandNoArgs, fun i p => command1arg helpArg.cf i p] input pos

def demoTable : List Command := [eastCmd, westCmd, resetCmd, helpCmd]

/-- A table of two commands whose keywords share the one-byte common
prefix `e`, used to exercise the `common.len() == 1` branch of
`hint_and_completion`. -/
def pairTable : List Command :=
  [{ keyword := "ea".toList, shortUsage := [], longUsage := [], parse := commandNoArgs },
   { keyword := "eb".toList, shortUsage := [], longUsage := [], parse := commandNoArgs }]

/-- A table of two commands whose keywords share the multi-byte common
prefix `aé`, giving a completion containing a two-byte character. -/
def accentTable : List Command :=
  [{ keyword := "aéx".toList, shortUsage := [], longUsage := [], parse := commandNoArgs },
   { keyword := "aéy".toList, shortUsage := [], longUsage := [], parse := commandNoArgs }]

/-- A table with a single no-argument command whose keyword is the
two-byte character `é`. -/
def accentNoArgTable : List Command :=
  [{ keyword := "é".toList, shortUsage := [], longUsage := [], parse := commandNoArgs }]

def demoPrompt : Prompt := ⟨"> ".toList, "> ".toList, "> ".toList, "> ".toList⟩

/-! ### Helper lemmas -/

/-- Any list is a Boolean prefix of itself followed by anything. -/
theorem isPrefixOf_append_self (l t : Str) : l.isPrefixOf (l ++ t) = true := by
  simp [List.isPrefixOf_iff_prefix]

/-- Any list is a Boolean prefix of itself. -/
theorem isPrefixOf_self (l : Str) : l.isPrefixOf l = true := by
  simp [List.isPrefixOf_iff_prefix]

/-- The default usage text starts with the fixed banner, so it never
equals the empty-input usage text. -/
theorem defaultUsage_ne_waiting (commands : List Command) :
    defaultUsage commands ≠ "Waiting for a command".toList := by
  intro h
  have h1 : (defaultUsage commands).headD ' ' = 'C' := rfl
  rw [h] at h1
  exact absurd h1 (by decide)

/-- `parse_args` never sets an inline hint. -/
theorem parseArgs_inlineHint_none (cmd : Command) (args : Str) (pos : Option Nat)
    (argsEnd : Nat) : (parseArgs cmd args pos argsEnd).inlineHint = none := by
  unfold parseArgs
  split <;> rfl

/-- `parse_args` never sets a completion. -/
theorem parseArgs_completion_none (cmd : Command) (args : Str) (pos : Option Nat)
    (argsEnd : Nat) : (parseArgs cmd args pos argsEnd).completion = none := by
  unfold parseArgs
  split <;> rfl

/-- Every advisory bundle `CommandsTable::parse` produces comes from one
of its five construction sites. -/
theorem tableParse_cases (commands : List Command) (input : Str) (pos : Nat) :
    tableParse commands input pos = emptyInput commands ∨
    tableParse commands input pos = noMatch ∨
    tableParse commands input pos = prefixCommandNoHints ∨
    (∃ cmd args ipos argsEnd, tableParse commands input pos = parseArgs cmd args ipos argsEnd) ∨
    (∃ pre m, tableParse commands input pos = prefixCommand pre m) := by
  unfold tableParse
  split
  · exact Or.inl rfl
  · dsimp only
    split
    · exact Or.inr (Or.inr (Or.inr (Or.inl ⟨_, _, _, _, rfl⟩)))
    · split
      · split
        · exact Or.inr (Or.inr (Or.inl rfl))
        · exact Or.inr (Or.inr (Or.inr (Or.inr ⟨_, _, rfl⟩)))
      · exact Or.inr (Or.inl rfl)

/-- When `hint_and_completion` produces both values, the hint is a prefix
of the completion (the completion is the hint, possibly extended by a
space). -/
theorem hintAndCompletion_isPrefixOf (pre : Str) (ks : List Str) (h c : Str)
    (hh : (hintAndCompletion pre ks).1 = some h)
    (hc : (hintAndCompletion pre ks).2 = some c) :
    h.isPrefixOf c = true := by
  unfold hintAndCompletion at hh hc
  dsimp only at hh hc
  split_ifs at hh hc
  · dsimp only at hh hc
    simp only [Option.some.injEq] at hh hc
    rw [← hh, ← hc]
    exact isPrefixOf_append_self _ _
  · dsimp only at hh hc
    simp only [Option.some.injEq] at hh hc
    rw [← hh, ← hc]
    exact isPrefixOf_self _

/-! ### Claim theorems -/

/-- Claim C1.  The claim states that with exactly one matching keyword the
completion is the inline hint followed by a space, and that for the table
`{east, west, reset, help}` the input `"e"` at cursor 1 yields
`inline_hint = "ast"` and `completion = "ast "`.  Evaluating
`CommandsTable::parse` at that failing input shows the code produces
`completion = "ast"` without the trailing space: `hint_and_completion`
appends the space only when `common.len() == 1` — a byte length of the
common prefix — although its own comment describes that branch as the
single-match case. -/
theorem claim1_single_match_completion_has_no_space :
    (tableParse demoTable "e".toList 1).inlineHint = some "ast".toList ∧
    (tableParse demoTable "e".toList 1).completion = some "ast".toList ∧
    "ast".toList ≠ "ast ".toList := by
  refine ⟨by decide, by decide, by decide⟩

/-- Claim C2.  The claim states that for `"east 99"` at cursor 7 the
`end_of_line_hint` is an `Error` reading `max: 63` whose `Substring`
target covers bytes `[5, 7)` of the whole input line.  Evaluating the
pipeline shows the hint is indeed `Error "max: 63"`, but its target is
`[0, 2)` — the token's byte bounds within the argument substring `"99"`,
which `parse_args` copies into the `Substring` target without shifting by
the arguments' start offset. -/
theorem claim2_error_target_is_args_relative :
    (tableParse demoTable "east 99".toList 7).endOfLineHint =
      some ⟨.Substring 0 2, .Error, "max: 63".toList⟩ ∧
    EndOfLineHintTarget.Substring 0 2 ≠ .Substring 5 7 := by
  refine ⟨by decide, by decide⟩

/-- Claim C3.  The claim states `0 ≤ cursor ≤ code_point_count(input)`
after every edit operation, in particular after `history_prev` on inputs
with multi-byte characters.  Running the reachable sequence
insert `é`, execute, `history_prev` over a table holding a no-argument
command with keyword `é` leaves the cursor at 2 — the byte length the
source assigns to `pos` — while the input holds a single character. -/
theorem claim3_history_prev_cursor_exceeds_code_point_count :
    (Input.historyPrev (Input.execute
        (Input.insertChar 'é' (Input.new demoPrompt accentNoArgTable)))).pos = 2 ∧
    (Input.historyPrev (Input.execute
        (Input.insertChar 'é' (Input.new demoPrompt accentNoArgTable)))).input.length = 1 := by
  refine ⟨by decide, by decide⟩

/-- Claim C4.  The claim states `complete` advances the cursor by the
code-point count of the inserted text.  Over the table with keywords
`{aéx, aéy}`, typing `a` derives the completion `é` (one code point, two
bytes); pressing the completion key moves the cursor from 1 to 3 — the
source adds `text.len()`, the byte length — where the claim mandates 2. -/
theorem claim4_complete_advances_by_byte_length :
    (Input.insertChar 'a' (Input.new demoPrompt accentTable)).completion =
      some "é".toList ∧
    (Input.complete (Input.insertChar 'a' (Input.new demoPrompt accentTable))).pos = 3 ∧
    ("é".toList).length = 1 := by
  refine ⟨by decide, by decide, by decide⟩

/-- Claim C5, counterexample.  The claim states that whenever both are
present, `completion` is a prefix of `inline_hint`.  Over the table with
keywords `{ea, eb}`, the input `"e"` with the cursor at 0 produces
`inline_hint = "e"` and `completion = "e "`, and `"e "` is not a prefix
of `"e"`. -/
theorem claim5_completion_not_prefix_of_inline_hint :
    (tableParse pairTable "e".toList 0).inlineHint = some "e".toList ∧
    (tableParse pairTable "e".toList 0).completion = some "e ".toList ∧
    ("e ".toList).isPrefixOf "e".toList = false := by
  refine ⟨by decide, by decide, by decide⟩

/-- Claim C6, counterexample.  The claim states the core's `insert(c)`
leaves the input and cursor unchanged for a control code point `c`.
`Input::insert_char` performs no control check: inserting `U+0007` into a
fresh edit state changes the input to that character and the cursor
to 1.  (The filtering the claim describes lives in the icp-termion
keystroke translator.) -/
theorem claim6_core_insert_does_not_ignore_control :
    isControl (Char.ofNat 7) = true ∧
    (Input.insertChar (Char.ofNat 7) (Input.new demoPrompt demoTable)).input =
      [Char.ofNat 7] ∧
    (Input.insertChar (Char.ofNat 7) (Input.new demoPrompt demoTable)).pos = 1 := by
  refine ⟨by decide, by decide, by decide⟩

/-- Claim C9, counterexample.  The claim states every syntactically valid
out-of-range integer — including values outside the machine type's range —
yields `reasons = ["max ...: <max>"]` (or `"min ..."`).  For
`prim_int::<u8>()` (bounds `[0, 255]` over the `u8` machine range) the
input `"256"` is syntactically valid and above `max`, yet `from_str`
fails, so the source returns the hint `["<0-255>"]` instead — exactly what
the repository's own `u8_parsing` test asserts. -/
theorem claim9_machine_overflow_yields_hint :
    (PrimIntArgParser.mk u8Type 0 255 none).parse "256".toList =
      .Failed 3 ["<0-255>".toList] ∧
    ["<0-255>".toList] ≠ ["max: 255".toList] := by
  refine ⟨by decide, by decide⟩

/-- Claim C5, amended.  For every advisory bundle produced by
`CommandsTable::parse`, whenever both `inline_hint` and `completion` are
present, the inline hint is a prefix of the completion (the completion is
the hint itself or the hint followed by a single space) — the reverse of
the claimed direction. -/
theorem claim5_inline_hint_is_prefix_of_completion
    (commands : List Command) (input : Str) (pos : Nat) (h c : Str)
    (hh : (tableParse commands input pos).inlineHint = some h)
    (hc : (tableParse commands input pos).completion = some c) :
    h.isPrefixOf c = true := by
  rcases tableParse_cases commands input pos with he | hn | hp | ⟨cmd, args, ipos, aend, hpa⟩ | ⟨pre, m, hpc⟩
  · rw [he] at hc
    exact absurd hc (by simp [emptyInput])
  · rw [hn] at hc
    exact absurd hc (by simp [noMatch])
  · rw [hp] at hc
    exact absurd hc (by simp [prefixCommandNoHints])
  · rw [hpa, parseArgs_inlineHint_none] at hh
    exact absurd hh (by simp)
  · rw [hpc] at hh hc
    unfold prefixCommand at hh hc
    dsimp only at hh hc
    exact hintAndCompletion_isPrefixOf _ _ _ _ hh hc

/-- Witness for claim C5: the demo table at input `"e"`, cursor 1, has
both fields present and the theorem applies. -/
theorem claim5_inline_hint_is_prefix_of_completion_witness :
    (tableParse demoTable "e".toList 1).inlineHint = some "ast".toList ∧
    (tableParse demoTable "e".toList 1).completion = some "ast".toList ∧
    ("ast".toList).isPrefixOf "ast".toList = true :=
  ⟨by decide, by decide,
    claim5_inline_hint_is_prefix_of_completion demoTable "e".toList 1
      "ast".toList "ast".toList (by decide) (by decide)⟩

/-- Claim C6, amended.  The core's `insert_char` inserts any code point —
control or not — at the cursor and advances the cursor by one; the
silent discarding of control characters happens in the icp-termion
keystroke translator, which maps a control character other than `'\n'`
(execute) and `'\t'` (complete) to no edit operation at all. -/
theorem claim6_insert_unconditional_translator_filters (c : Char) (s : Input) :
    ((Input.insertChar c s).input = s.input.take s.pos ++ [c] ++ s.input.drop s.pos ∧
      (Input.insertChar c s).pos = s.pos + 1) ∧
    (isControl c = true → c ≠ '\n' → c ≠ '\t' → termionInput (.char c) s = s) := by
  constructor
  · exact ⟨rfl, rfl⟩
  · intro hctl hn ht
    unfold termionInput
    split <;>
      first
      | rfl
      | (rename_i heq; cases heq; exact absurd rfl hn)
      | (rename_i heq; cases heq; exact absurd rfl ht)
      | (rename_i heq; cases heq; rw [hctl]; rfl)
      | (rename_i heq; exact absurd heq (by simp))

/-- Witness for claim C6 at the control character `U+0007` on a fresh
edit state. -/
theorem claim6_insert_unconditional_translator_filters_witness :
    isControl (Char.ofNat 7) = true ∧
    ((Input.insertChar (Char.ofNat 7) (Input.new demoPrompt pairTable)).pos = 0 + 1 ∧
      termionInput (.char (Char.ofNat 7)) (Input.new demoPrompt pairTable) =
        Input.new demoPrompt pairTable) :=
  ⟨by decide,
    (claim6_insert_unconditional_translator_filters (Char.ofNat 7)
        (Input.new demoPrompt pairTable)).1.2,
    (claim6_insert_unconditional_translator_filters (Char.ofNat 7)
        (Input.new demoPrompt pairTable)).2 (by decide) (by decide) (by decide)⟩

/-- Claim C7.  `History::prev(cur)`: on an empty ring it returns `cur`
and changes nothing; when `current = 0` it pushes `cur` to the front as
the scratch entry, sets `current = 1` and returns the entry at index 1 of
the new ring; otherwise it increments `current` only while
`current < len - 1` (never moving past `len - 1`) and returns the entry
at the new `current`. -/
theorem claim7_history_prev_behavior (h : History) (cur : Str) :
    (h.entries = [] → h.prev cur = (cur, h)) ∧
    (h.entries ≠ [] → h.current = 0 →
      (h.prev cur).2.entries = cur :: h.entries ∧
      (h.prev cur).2.current = 1 ∧
      (h.prev cur).1 = (cur :: h.entries).getD 1 []) ∧
    (h.entries ≠ [] → h.current ≠ 0 →
      (h.prev cur).2.entries = h.entries ∧
      (h.prev cur).2.current =
        (if h.current < h.entries.length - 1 then h.current + 1 else h.current) ∧
      (h.prev cur).2.current ≤ max (h.entries.length - 1) h.current ∧
      (h.prev cur).1 = h.entries.getD (h.prev cur).2.current []) := by
  refine ⟨?_, ?_, ?_⟩
  · intro he
    unfold History.prev
    rw [if_pos he]
  · intro he hz
    unfold History.prev
    rw [if_neg he, if_pos hz]
    exact ⟨rfl, rfl, rfl⟩
  · intro he hz
    unfold History.prev
    rw [if_neg he, if_neg hz]
    refine ⟨rfl, rfl, ?_, rfl⟩
    dsimp only
    split_ifs with hlt
    · omega
    · omega

/-- Witness for claim C7 on the ring `{a, b, c}` browsed at `current = 2 =
len - 1`: `prev` saturates and returns the oldest reachable entry. -/
theorem claim7_history_prev_behavior_witness :
    (History.mk ["a".toList, "b".toList, "c".toList] 2).entries ≠ [] ∧
    ((History.mk ["a".toList, "b".toList, "c".toList] 2).prev "x".toList).2.current =
      (if 2 < 3 - 1 then 2 + 1 else 2) :=
  ⟨by decide,
    ((claim7_history_prev_behavior
        (History.mk ["a".toList, "b".toList, "c".toList] 2) "x".toList).2.2
      (by decide) (by decide)).2.1⟩

/-- Unfolding of `merge` on two failures. -/
theorem merge_failed {Res : Type} (p1 p2 : Nat) (r1 r2 : List Str) :
    (ArgParseRes.Failed p1 r1 : ArgParseRes Res).merge (ArgParseRes.Failed p2 r2) =
      if p1 < p2 then ArgParseRes.Failed p2 r2
      else if p2 < p1 then ArgParseRes.Failed p1 r1
      else ArgParseRes.Failed p1 (r1 ++ r2) := rfl

/-- Claim C8.  `ArgParseRes::merge` is associative, and on two failures
with equal `parsed_up_to` the two merge orders produce failures at that
same position whose reason lists are concatenations in either order —
the same multiset of reasons. -/
theorem claim8_merge_assoc_and_tie_comm :
    (∀ (Res : Type) (a b c : ArgParseRes Res), (a.merge b).merge c = a.merge (b.merge c)) ∧
    (∀ (Res : Type) (p : Nat) (r1 r2 : List Str),
      (ArgParseRes.Failed p r1 : ArgParseRes Res).merge (ArgParseRes.Failed p r2) =
        ArgParseRes.Failed p (r1 ++ r2) ∧
      (ArgParseRes.Failed p r2 : ArgParseRes Res).merge (ArgParseRes.Failed p r1) =
        ArgParseRes.Failed p (r2 ++ r1) ∧
      (r1 ++ r2).Perm (r2 ++ r1)) := by
  constructor
  · intro Res a b c
    cases a with
    | Parsed ra => rfl
    | Failed p1 r1 =>
      cases b with
      | Parsed rb => rfl
      | Failed p2 r2 =>
        cases c with
        | Parsed rc =>
          simp only [merge_failed]
          split_ifs <;> rfl
        | Failed p3 r3 =>
          simp only [merge_failed]
          split_ifs <;> simp only [merge_failed] <;> split_ifs <;>
            first
            | rfl
            | omega
            | simp [List.append_assoc]
  · intro Res p r1 r2
    refine ⟨?_, ?_, List.perm_append_comm⟩
    · rw [merge_failed]
      simp
    · rw [merge_failed]
      simp

/-- Claim C9, amended.  For a syntactically valid integer input, the
`"min ..."` / `"max ..."` reasons with `parsed_up_to = len(input)` are
produced exactly when `from_str` succeeds (the value is representable in
the machine type) and the value falls outside `[min, max]`; when
`from_str` fails — any value outside the machine type's own range — the
parser instead fails with `parsed_up_to = len(input)` and
`reasons = hint()`. -/
theorem claim9_range_failure_reasons (p : PrimIntArgParser) (input : Str)
    (hnum : isNumber input = true) :
    (∀ v : Int, fromStr p.ty input = some v →
      (v < p.min → p.parse input = .Failed (utf8Len input) [p.minMsg]) ∧
      (¬ v < p.min → p.max < v → p.parse input = .Failed (utf8Len input) [p.maxMsg])) ∧
    (fromStr p.ty input = none → p.parse input = .Failed (utf8Len input) p.hint) := by
  constructor
  · intro v hv
    constructor
    · intro hlt
      unfold PrimIntArgParser.parse
      rw [if_neg (by simp [hnum]), hv]
      dsimp only
      rw [if_pos hlt]
    · intro hge hgt
      unfold PrimIntArgParser.parse
      rw [if_neg (by simp [hnum]), hv]
      dsimp only
      rw [if_neg hge, if_pos hgt]
  · intro hnone
    unfold PrimIntArgParser.parse
    rw [if_neg (by simp [hnum]), hnone]

/-- Witness for claim C9: the `east` argument parser (`u8` machine type,
bounds `[0, 63]`) on the representable out-of-range input `"99"`. -/
theorem claim9_range_failure_reasons_witness :
    isNumber "99".toList = true ∧
    rangeArg.maxMsg = "max: 63".toList ∧
    rangeArg.parse "99".toList = .Failed 2 [rangeArg.maxMsg] :=
  ⟨by decide, by decide,
    ((claim9_range_failure_reasons rangeArg "99".toList (by decide)).1 99
        (by decide)).2 (by decide) (by decide)⟩

/-- Claim C10.  `Input::new` does not run `recompute`: right after
construction the inline hint, completion, end-of-line hint and command
are `None`, the suggestions are empty, and the usage is the table's
`default_usage` banner — which differs from the empty-input advisory's
`"Waiting for a command"`.  The first edit operation that leaves the
input empty (here `history_prev` on the fresh state, whose empty history
hands the input back unchanged) swaps the bundle for the empty-input
advisory: inline hint `"<command>"`, all keywords suggested, usage
`"Waiting for a command"`. -/
theorem claim10_initial_bundle_not_recomputed (commands : List Command) (prompt : Prompt) :
    ((Input.new prompt commands).inlineHint = none ∧
      (Input.new prompt commands).completion = none ∧
      (Input.new prompt commands).endOfLineHint = none ∧
      (Input.new prompt commands).suggestions = [] ∧
      (Input.new prompt commands).command = none ∧
      (Input.new prompt commands).usage = some (defaultUsage commands) ∧
      defaultUsage commands ≠ "Waiting for a command".toList) ∧
    ((Input.historyPrev (Input.new prompt commands)).input = [] ∧
      (Input.historyPrev (Input.new prompt commands)).inlineHint = some "<command>".toList ∧
      (Input.historyPrev (Input.new prompt commands)).completion = none ∧
      (Input.historyPrev (Input.new prompt commands)).endOfLineHint = none ∧
      (Input.historyPrev (Input.new prompt commands)).suggestions =
        commands.map (fun c => c.keyword) ∧
      (Input.historyPrev (Input.new prompt commands)).usage =
        some "Waiting for a command".toList ∧
      (Input.historyPrev (Input.new prompt commands)).command = none) :=
  ⟨⟨rfl, rfl, rfl, rfl, rfl, rfl, defaultUsage_ne_waiting commands⟩,
    ⟨rfl, rfl, rfl, rfl, rfl, rfl, rfl⟩⟩

end Icp
